import Mathlib

/-!
Shallow embedding of the password-generator core from src/script.js
(class PasswordGenerator: generatePassword, shuffleString,
calculatePasswordStrength) and proofs of the specification claims.

Passwords are modelled as lists of characters.  Each call to the
JavaScript expression Math.floor(Math.random() * n) produces an index in
[0, n); we model the whole random sequence as a function rand : Nat → Nat
consumed draw by draw, reducing each raw draw modulo the relevant size, so
that quantifying over rand covers every possible sequence of draws.
-/

namespace PwdGen

/-- Alphabet of the uppercase class (script.js line 98). -/
def uppercase : List Char := "ABCDEFGHIJKLMNOPQRSTUVWXYZ".toList

/-- Alphabet of the lowercase class (script.js line 99). -/
def lowercase : List Char := "abcdefghijklmnopqrstuvwxyz".toList

/-- Alphabet of the digit class (script.js line 100). -/
def numbers : List Char := "0123456789".toList

/-- Alphabet of the symbol class (script.js line 101). -/
def symbols : List Char := "!@#$%^&*()_+-=[]\x7b\x7d|;:,.<>?".toList

/-- The four boolean class toggles read from the checkboxes
(script.js lines 74-77). -/
structure Config where
  hasUppercase : Bool
  hasLowercase : Bool
  hasNumbers : Bool
  hasSymbols : Bool

/-- True when no character class is enabled (script.js line 88). -/
def noneSelected (cfg : Config) : Bool :=
  !cfg.hasUppercase && !cfg.hasLowercase && !cfg.hasNumbers && !cfg.hasSymbols

/-- The union alphabet availableChars, built by concatenating the enabled
alphabets in the fixed order uppercase, lowercase, numbers, symbols
(script.js lines 104-108). -/
def availableChars (cfg : Config) : List Char :=
  (if cfg.hasUppercase then uppercase else [])
    ++ (if cfg.hasLowercase then lowercase else [])
    ++ (if cfg.hasNumbers then numbers else [])
    ++ (if cfg.hasSymbols then symbols else [])

/-- The list selectedTypes of enabled alphabets, in the same fixed order
(script.js lines 112-116). -/
def selectedTypes (cfg : Config) : List (List Char) :=
  (if cfg.hasUppercase then [uppercase] else [])
    ++ (if cfg.hasLowercase then [lowercase] else [])
    ++ (if cfg.hasNumbers then [numbers] else [])
    ++ (if cfg.hasSymbols then [symbols] else [])

/-- One character draw charSet[Math.floor(Math.random() * charSet.length)]
(script.js lines 120 and 125): the raw draw r is reduced modulo the
alphabet length, so for a nonempty alphabet the index is always in range
and the default is never used. -/
def pickChar (charSet : List Char) (r : Nat) : Char :=
  charSet.getD (r % charSet.length) 'A'

/-- The loop adding one character from each selected type
(script.js lines 119-121); draw i is used for the i-th selected type. -/
def guaranteedChars : List (List Char) → (Nat → Nat) → List Char
  | [], _ => []
  | t :: ts, rand => pickChar t (rand 0) :: guaranteedChars ts (fun k => rand (k + 1))

/-- The fill loop (script.js lines 124-126) appending n random characters
from the union alphabet. -/
def fillChars (avail : List Char) (n : Nat) (rand : Nat → Nat) : List Char :=
  (List.range n).map (fun k => pickChar avail (rand k))

/-- One Fisher-Yates swap of positions i and j
(script.js line 142).  In every reachable call both indices are in range;
the out-of-range guard merely totalises the definition (it leaves the
list unchanged). -/
def listSwap (l : List Char) (i j : Nat) : List Char :=
  match l[i]?, l[j]? with
  | some a, some b => (l.set i b).set j a
  | _, _ => l

/-- The Fisher-Yates loop of shuffleString (script.js lines 140-143),
counting i down; at index i the swap partner is a fresh draw modulo
(i + 1). -/
def shuffleAux (arr : List Char) : Nat → (Nat → Nat) → List Char
  | 0, _ => arr
  | i + 1, rand =>
      shuffleAux (listSwap arr (i + 1) (rand 0 % (i + 2))) i (fun k => rand (k + 1))

/-- shuffleString (script.js lines 138-145): Fisher-Yates shuffle starting
at index length - 1. -/
def shuffleString (s : List Char) (rand : Nat → Nat) : List Char :=
  shuffleAux s (s.length - 1) rand

/-- The single error condition of the generator: no class enabled while a
positive length is requested (script.js lines 88-93). -/
inductive GenError where
  | emptyConfiguration
deriving DecidableEq

/-- The password accumulator right before the shuffle
(script.js lines 111-126): one guaranteed character per selected type,
then fill draws from the union alphabet while the accumulator is shorter
than the requested length (the truncated subtraction is 0 when the
guaranteed characters already reach or exceed the requested length,
exactly as the fill loop then runs zero times).  Draws are consumed in
program order: one per selected type, then one per fill position. -/
def preShuffle (length : Nat) (cfg : Config) (rand : Nat → Nat) : List Char :=
  guaranteedChars (selectedTypes cfg) rand ++
    fillChars (availableChars cfg)
      (length - (guaranteedChars (selectedTypes cfg) rand).length)
      (fun k => rand ((guaranteedChars (selectedTypes cfg) rand).length + k))

/-- generatePassword (script.js lines 72-136), restricted to its
algorithmic core: zero length short-circuits to the empty string
(lines 80-85), an empty configuration signals the error (lines 88-93),
otherwise the accumulated characters are shuffled (line 129) with the
remaining draws. -/
def generatePassword (length : Nat) (cfg : Config) (rand : Nat → Nat) :
    Except GenError (List Char) :=
  if length = 0 then .ok []
  else if noneSelected cfg then .error .emptyConfiguration
  else .ok (shuffleString (preShuffle length cfg rand)
    (fun k => rand ((preShuffle length cfg rand).length + k)))

/-- The regex test /[A-Z]/.test(password) (script.js line 177). -/
def testUppercase (password : List Char) : Bool :=
  password.any (fun c => decide ('A' ≤ c) && decide (c ≤ 'Z'))

/-- The regex test /[a-z]/.test(password) (script.js line 178). -/
def testLowercase (password : List Char) : Bool :=
  password.any (fun c => decide ('a' ≤ c) && decide (c ≤ 'z'))

/-- The regex test /\d/.test(password) (script.js line 179). -/
def testNumbers (password : List Char) : Bool :=
  password.any (fun c => decide ('0' ≤ c) && decide (c ≤ '9'))

/-- The symbol regex test (script.js line 180); its character class is
exactly the symbol alphabet. -/
def testSymbols (password : List Char) : Bool :=
  password.any (fun c => symbols.contains c)

/-- The cumulative length contribution (script.js lines 172-174). -/
def lengthScore (password : List Char) : Int :=
  (if 8 ≤ password.length then 1 else 0)
    + (if 12 ≤ password.length then 1 else 0)
    + (if 16 ≤ password.length then 1 else 0)

/-- varietyCount, the number of true predicates among the four
(script.js lines 182-183). -/
def varietyCount (password : List Char) : Int :=
  (if testUppercase password then 1 else 0)
    + (if testLowercase password then 1 else 0)
    + (if testNumbers password then 1 else 0)
    + (if testSymbols password then 1 else 0)

/-- calculatePasswordStrength (script.js lines 168-194): length score,
plus varietyCount - 1, plus a mixed-case bonus (line 188), plus a
digit-and-symbol bonus (line 191), capped at 4.  The intermediate sum is
an integer because varietyCount - 1 can be negative. -/
def calculatePasswordStrength (password : List Char) : Int :=
  min
    (lengthScore password + (varietyCount password - 1)
      + (if testUppercase password && testLowercase password then 1 else 0)
      + (if testNumbers password && testSymbols password then 1 else 0))
    4

/-- Following the wording of claim C1: the number of thresholds in
8, 12, 16 that the length of the password meets. -/
def thresholdsMet (password : List Char) : Nat :=
  List.countP (fun t => decide (t ≤ password.length)) [8, 12, 16]

/-- Following the wording of claim C1: the number of true predicates
among contains-uppercase, contains-lowercase, contains-digit,
contains-symbol. -/
def predicatesTrue (password : List Char) : Nat :=
  List.countP id
    [testUppercase password, testLowercase password,
      testNumbers password, testSymbols password]

/-- The strength formula exactly as claim C1 words it:
min of L + (V - 1) + B and 4, where B is the digit-and-symbol bonus.
There is no mixed-case bonus in this formula. -/
def claimedStrength (password : List Char) : Int :=
  min
    ((thresholdsMet password : Int) + ((predicatesTrue password : Int) - 1)
      + (if testNumbers password && testSymbols password then 1 else 0))
    4

/-- The amended strength formula: the claimed formula plus the mixed-case
bonus that the code also awards (script.js line 188). -/
def amendedStrength (password : List Char) : Int :=
  min
    ((thresholdsMet password : Int) + ((predicatesTrue password : Int) - 1)
      + (if testUppercase password && testLowercase password then 1 else 0)
      + (if testNumbers password && testSymbols password then 1 else 0))
    4

/-! ## Permutation facts about the shuffle -/

/-- Replacing position k by x and consing the old entry in front is a
permutation of consing x in front. -/
theorem cons_set_perm :
    ∀ (xs : List Char) (k : Nat) (hk : k < xs.length) (x : Char),
      List.Perm (xs[k] :: xs.set k x) (x :: xs) := by
  intro xs
  induction xs with
  | nil => intro k hk x; simp at hk
  | cons y ys ih =>
    intro k hk x
    cases k with
    | zero =>
      simpa using List.Perm.swap x y ys
    | succ m =>
      have hm : m < ys.length := by simpa using hk
      simp only [List.getElem_cons_succ, List.set_cons_succ]
      exact ((List.Perm.swap _ _ _).trans ((ih m hm x).cons y)).trans
        (List.Perm.swap _ _ _)

/-- Exchanging the entries at two in-range positions is a permutation. -/
theorem set_set_perm :
    ∀ (l : List Char) (i j : Nat) (hi : i < l.length) (hj : j < l.length),
      List.Perm ((l.set i l[j]).set j l[i]) l := by
  intro l
  induction l with
  | nil => intro i j hi hj; simp at hi
  | cons y ys ih =>
    intro i j hi hj
    cases i with
    | zero =>
      cases j with
      | zero => simp
      | succ n =>
        have hn : n < ys.length := by simpa using hj
        simp only [List.getElem_cons_zero, List.getElem_cons_succ,
          List.set_cons_zero, List.set_cons_succ]
        exact cons_set_perm ys n hn y
    | succ m =>
      have hm : m < ys.length := by simpa using hi
      cases j with
      | zero =>
        simp only [List.getElem_cons_zero, List.getElem_cons_succ,
          List.set_cons_zero, List.set_cons_succ]
        exact cons_set_perm ys m hm y
      | succ n =>
        have hn : n < ys.length := by simpa using hj
        simp only [List.getElem_cons_succ, List.set_cons_succ]
        exact (ih m n hm hn).cons y

/-- A single Fisher-Yates swap permutes the list. -/
theorem listSwap_perm (l : List Char) (i j : Nat) :
    List.Perm (listSwap l i j) l := by
  unfold listSwap
  split
  · next a b ha hb =>
    obtain ⟨hi, rfl⟩ := List.getElem?_eq_some.mp ha
    obtain ⟨hj, rfl⟩ := List.getElem?_eq_some.mp hb
    exact set_set_perm l i j hi hj
  · exact List.Perm.refl l

/-- The Fisher-Yates loop permutes the list. -/
theorem shuffleAux_perm :
    ∀ (i : Nat) (arr : List Char) (rand : Nat → Nat),
      List.Perm (shuffleAux arr i rand) arr := by
  intro i
  induction i with
  | zero => intro arr rand; exact List.Perm.refl arr
  | succ m ih =>
    intro arr rand
    exact (ih _ _).trans (listSwap_perm arr (m + 1) _)

/-- shuffleString permutes its input. -/
theorem shuffleString_perm (s : List Char) (rand : Nat → Nat) :
    List.Perm (shuffleString s rand) s :=
  shuffleAux_perm (s.length - 1) s rand

/-! ## Length and membership facts about the generator -/

/-- One guaranteed character is drawn per selected type. -/
theorem guaranteedChars_length :
    ∀ (ts : List (List Char)) (rand : Nat → Nat),
      (guaranteedChars ts rand).length = ts.length := by
  intro ts
  induction ts with
  | nil => intro rand; rfl
  | cons t ts ih => intro rand; simp [guaranteedChars, ih]

/-- The fill loop appends exactly the requested number of characters. -/
theorem fillChars_length (avail : List Char) (n : Nat) (rand : Nat → Nat) :
    (fillChars avail n rand).length = n := by
  simp [fillChars]

/-- A draw from a nonempty alphabet lands in that alphabet. -/
theorem pickChar_mem (charSet : List Char) (r : Nat) (h : charSet ≠ []) :
    pickChar charSet r ∈ charSet := by
  unfold pickChar
  have hlen : 0 < charSet.length := List.length_pos.mpr h
  have hlt : r % charSet.length < charSet.length := Nat.mod_lt _ hlen
  rw [List.getD_eq_getElem _ _ hlt]
  exact List.getElem_mem hlt

/-- Every guaranteed character comes from one of the selected types. -/
theorem guaranteedChars_mem :
    ∀ (ts : List (List Char)) (rand : Nat → Nat), (∀ t ∈ ts, t ≠ []) →
      ∀ c ∈ guaranteedChars ts rand, ∃ t ∈ ts, c ∈ t := by
  intro ts
  induction ts with
  | nil => intro rand _ c hc; simp [guaranteedChars] at hc
  | cons t ts ih =>
    intro rand hne c hc
    rcases List.mem_cons.mp hc with hc | hc
    · exact ⟨t, List.mem_cons_self t ts,
        hc ▸ pickChar_mem t (rand 0) (hne t (List.mem_cons_self t ts))⟩
    · obtain ⟨u, hu, hcu⟩ :=
        ih (fun k => rand (k + 1)) (fun u hu => hne u (List.mem_cons_of_mem t hu)) c hc
      exact ⟨u, List.mem_cons_of_mem t hu, hcu⟩

/-- Every selected type is represented among the guaranteed characters. -/
theorem guaranteedChars_cover :
    ∀ (ts : List (List Char)) (rand : Nat → Nat), (∀ t ∈ ts, t ≠ []) →
      ∀ t ∈ ts, ∃ c ∈ guaranteedChars ts rand, c ∈ t := by
  intro ts
  induction ts with
  | nil => intro rand _ t ht; simp at ht
  | cons u ts ih =>
    intro rand hne t ht
    rcases List.mem_cons.mp ht with rfl | ht
    · exact ⟨pickChar t (rand 0), List.mem_cons_self _ _,
        pickChar_mem t (rand 0) (hne t (List.mem_cons_self t ts))⟩
    · obtain ⟨c, hcg, hct⟩ :=
        ih (fun k => rand (k + 1)) (fun v hv => hne v (List.mem_cons_of_mem u hv)) t ht
      exact ⟨c, List.mem_cons_of_mem _ hcg, hct⟩

/-- Every fill character comes from the union alphabet. -/
theorem fillChars_mem (avail : List Char) (n : Nat) (rand : Nat → Nat)
    (h : avail ≠ []) : ∀ c ∈ fillChars avail n rand, c ∈ avail := by
  intro c hc
  simp only [fillChars, List.mem_map] at hc
  obtain ⟨k, _, rfl⟩ := hc
  exact pickChar_mem avail (rand k) h

/-! ## Facts about the configuration tables -/

/-- Every selected type is one of the four class alphabets. -/
theorem selectedTypes_mem (cfg : Config) (t : List Char)
    (ht : t ∈ selectedTypes cfg) :
    t = uppercase ∨ t = lowercase ∨ t = numbers ∨ t = symbols := by
  rcases cfg with ⟨u, l, n, s⟩
  cases u <;> cases l <;> cases n <;> cases s <;>
    simp [selectedTypes] at ht <;> tauto

/-- Each of the four class alphabets is nonempty. -/
theorem uppercase_ne_nil : uppercase ≠ [] := by decide

theorem lowercase_ne_nil : lowercase ≠ [] := by decide

theorem numbers_ne_nil : numbers ≠ [] := by decide

theorem symbols_ne_nil : symbols ≠ [] := by decide

/-- Every selected type is a nonempty alphabet. -/
theorem selectedTypes_ne_nil_elem (cfg : Config) :
    ∀ t ∈ selectedTypes cfg, t ≠ [] := by
  intro t ht
  rcases selectedTypes_mem cfg t ht with rfl | rfl | rfl | rfl
  · exact uppercase_ne_nil
  · exact lowercase_ne_nil
  · exact numbers_ne_nil
  · exact symbols_ne_nil

/-- Flattening the selected types gives exactly the union alphabet. -/
theorem flatten_selectedTypes (cfg : Config) :
    (selectedTypes cfg).flatten = availableChars cfg := by
  rcases cfg with ⟨u, l, n, s⟩
  cases u <;> cases l <;> cases n <;> cases s <;>
    simp [selectedTypes, availableChars]

/-- The boolean guard of script.js line 88 is equivalent to the list of
selected types being empty. -/
theorem noneSelected_iff (cfg : Config) :
    noneSelected cfg = true ↔ selectedTypes cfg = [] := by
  rcases cfg with ⟨u, l, n, s⟩
  cases u <;> cases l <;> cases n <;> cases s <;>
    simp [noneSelected, selectedTypes]

/-- Membership in the union alphabet, class by class. -/
theorem mem_availableChars (cfg : Config) (c : Char) :
    c ∈ availableChars cfg ↔
      (cfg.hasUppercase = true ∧ c ∈ uppercase)
        ∨ (cfg.hasLowercase = true ∧ c ∈ lowercase)
        ∨ (cfg.hasNumbers = true ∧ c ∈ numbers)
        ∨ (cfg.hasSymbols = true ∧ c ∈ symbols) := by
  rcases cfg with ⟨u, l, n, s⟩
  cases u <;> cases l <;> cases n <;> cases s <;>
    simp [availableChars]

/-- When some class is selected the union alphabet is nonempty. -/
theorem availableChars_ne_nil (cfg : Config)
    (h : selectedTypes cfg ≠ []) : availableChars cfg ≠ [] := by
  obtain ⟨t, ts, hts⟩ : ∃ t ts, selectedTypes cfg = t :: ts := by
    cases hsel : selectedTypes cfg with
    | nil => exact absurd hsel h
    | cons t ts => exact ⟨t, ts, rfl⟩
  have ht : t ∈ selectedTypes cfg := by
    rw [hts]; exact List.mem_cons_self t ts
  obtain ⟨c, hc⟩ := List.exists_mem_of_ne_nil t (selectedTypes_ne_nil_elem cfg t ht)
  have : c ∈ availableChars cfg := by
    rw [← flatten_selectedTypes]
    exact List.mem_flatten.mpr ⟨t, ht, hc⟩
  exact List.ne_nil_of_mem this

/-! ## The shape of a successful generation -/

/-- On a positive length and a nonempty selection the generator succeeds
and its output is a permutation of the guaranteed characters followed by
the fill characters. -/
theorem generate_ok_spec (len : Nat) (cfg : Config) (rand : Nat → Nat)
    (h0 : len ≠ 0) (hne : selectedTypes cfg ≠ []) :
    ∃ pw, generatePassword len cfg rand = Except.ok pw ∧
      List.Perm pw
        (guaranteedChars (selectedTypes cfg) rand ++
          fillChars (availableChars cfg) (len - (selectedTypes cfg).length)
            (fun k => rand ((selectedTypes cfg).length + k))) := by
  have hnsel : noneSelected cfg = false := by
    cases hsel : noneSelected cfg with
    | false => rfl
    | true => exact absurd ((noneSelected_iff cfg).mp hsel) hne
  unfold generatePassword
  rw [if_neg h0, if_neg (by simp [hnsel])]
  refine ⟨_, rfl, ?_⟩
  have hperm := shuffleString_perm (preShuffle len cfg rand)
    (fun k => rand ((preShuffle len cfg rand).length + k))
  refine hperm.trans ?_
  unfold preShuffle
  simp only [guaranteedChars_length]
  exact List.Perm.refl _

/-! ## Disjointness of the four class alphabets -/

theorem not_mem_uppercase_of_mem_lowercase :
    ∀ c ∈ lowercase, c ∉ uppercase := by decide

theorem not_mem_uppercase_of_mem_numbers :
    ∀ c ∈ numbers, c ∉ uppercase := by decide

theorem not_mem_uppercase_of_mem_symbols :
    ∀ c ∈ symbols, c ∉ uppercase := by decide

theorem not_mem_lowercase_of_mem_uppercase :
    ∀ c ∈ uppercase, c ∉ lowercase := by decide

theorem not_mem_lowercase_of_mem_numbers :
    ∀ c ∈ numbers, c ∉ lowercase := by decide

theorem not_mem_lowercase_of_mem_symbols :
    ∀ c ∈ symbols, c ∉ lowercase := by decide

theorem not_mem_numbers_of_mem_uppercase :
    ∀ c ∈ uppercase, c ∉ numbers := by decide

theorem not_mem_numbers_of_mem_lowercase :
    ∀ c ∈ lowercase, c ∉ numbers := by decide

theorem not_mem_numbers_of_mem_symbols :
    ∀ c ∈ symbols, c ∉ numbers := by decide

theorem not_mem_symbols_of_mem_uppercase :
    ∀ c ∈ uppercase, c ∉ symbols := by decide

theorem not_mem_symbols_of_mem_lowercase :
    ∀ c ∈ lowercase, c ∉ symbols := by decide

theorem not_mem_symbols_of_mem_numbers :
    ∀ c ∈ numbers, c ∉ symbols := by decide

/-! ## Facts about the strength scorer -/

/-- The cumulative length ifs compute the count of thresholds met. -/
theorem lengthScore_eq_thresholdsMet (p : List Char) :
    lengthScore p = (thresholdsMet p : Int) := by
  unfold lengthScore thresholdsMet
  simp only [List.countP_cons, List.countP_nil, decide_eq_true_eq]
  split_ifs <;> norm_num

/-- varietyCount computes the count of true predicates. -/
theorem varietyCount_eq_predicatesTrue (p : List Char) :
    varietyCount p = (predicatesTrue p : Int) := by
  unfold varietyCount predicatesTrue
  simp only [List.countP_cons, List.countP_nil, id]
  cases testUppercase p <;> cases testLowercase p <;>
    cases testNumbers p <;> cases testSymbols p <;> norm_num

theorem lengthScore_nonneg (p : List Char) : 0 ≤ lengthScore p := by
  unfold lengthScore
  split_ifs <;> norm_num

theorem lengthScore_le (p : List Char) : lengthScore p ≤ 3 := by
  unfold lengthScore
  split_ifs <;> norm_num

/-- When at least one predicate holds, varietyCount is at least one. -/
theorem varietyCount_pos (p : List Char)
    (h : (testUppercase p || testLowercase p || testNumbers p
      || testSymbols p) = true) :
    1 ≤ varietyCount p := by
  unfold varietyCount
  cases hu : testUppercase p <;> cases hl : testLowercase p <;>
    cases hn : testNumbers p <;> cases hs : testSymbols p <;>
    simp_all

/-- Alphabet membership implies the corresponding regex test. -/
theorem testUppercase_of_mem (p : List Char) (c : Char) (hc : c ∈ p)
    (hm : c ∈ uppercase) : testUppercase p = true := by
  have hch : ∀ d ∈ uppercase,
      (decide ('A' ≤ d) && decide (d ≤ 'Z')) = true := by decide
  exact List.any_eq_true.mpr ⟨c, hc, hch c hm⟩

theorem testLowercase_of_mem (p : List Char) (c : Char) (hc : c ∈ p)
    (hm : c ∈ lowercase) : testLowercase p = true := by
  have hch : ∀ d ∈ lowercase,
      (decide ('a' ≤ d) && decide (d ≤ 'z')) = true := by decide
  exact List.any_eq_true.mpr ⟨c, hc, hch c hm⟩

theorem testNumbers_of_mem (p : List Char) (c : Char) (hc : c ∈ p)
    (hm : c ∈ numbers) : testNumbers p = true := by
  have hch : ∀ d ∈ numbers,
      (decide ('0' ≤ d) && decide (d ≤ '9')) = true := by decide
  exact List.any_eq_true.mpr ⟨c, hc, hch c hm⟩

theorem testSymbols_of_mem (p : List Char) (c : Char) (hc : c ∈ p)
    (hm : c ∈ symbols) : testSymbols p = true := by
  have hch : ∀ d ∈ symbols, symbols.contains d = true := by decide
  exact List.any_eq_true.mpr ⟨c, hc, hch c hm⟩

/-! ## The claims -/

/-- Claim C1, counterexample: on the 10-character password Abcdefgh12 the
code computes strength 4 (the mixed-case bonus of script.js line 188
fires), while the formula of the claim, which lacks that bonus, gives 3;
so calculatePasswordStrength does not equal the claimed formula and the
concrete score named in the claim is wrong. -/
theorem strength_claimed_formula_counterexample :
    calculatePasswordStrength (String.toList "Abcdefgh12") = 4 ∧
      claimedStrength (String.toList "Abcdefgh12") = 3 := by
  constructor <;> decide

/-- Claim C1 as amended: for every password p,
calculatePasswordStrength p equals min(L + (V - 1) + M + B, 4) where L
counts the thresholds 8, 12, 16 met by the length, V counts the true
predicates among the four class tests, M is 1 exactly when p contains
both an uppercase and a lowercase letter, and B is 1 exactly when p
contains both a digit and a symbol. -/
theorem strength_eq_amended_formula (p : List Char) :
    calculatePasswordStrength p = amendedStrength p := by
  unfold calculatePasswordStrength amendedStrength
  rw [lengthScore_eq_thresholdsMet, varietyCount_eq_predicatesTrue]

/-- Claim C2: the code evaluated at the failing input, the empty string,
returns -1, outside the documented range [0, 4]: the variety count is 0,
so the score starts at 0 - 1 and nothing clamps it. -/
theorem strength_empty_string_negative :
    calculatePasswordStrength [] = -1 := by decide

/-- Claim C3, counterexample: with requested length 1 and the two classes
uppercase and lowercase enabled, the generator returns a password of
length 2, not 1: the guaranteed per-class draws are never truncated. -/
theorem generate_exact_length_counterexample :
    generatePassword 1 ⟨true, true, false, false⟩ (fun _ => 0)
        = Except.ok (String.toList "aA") ∧
      (String.toList "aA").length ≠ 1 := ⟨rfl, by decide⟩

/-- Claim C3 as amended: for every length at least 1, every nonempty
selection whose class count does not exceed the length, and every
sequence of draws, the generated password has exactly the requested
number of characters. -/
theorem generate_exact_length_when_enough (len : Nat) (cfg : Config)
    (rand : Nat → Nat) (h1 : 1 ≤ len) (h2 : selectedTypes cfg ≠ [])
    (h3 : (selectedTypes cfg).length ≤ len) :
    ∃ pw, generatePassword len cfg rand = Except.ok pw ∧
      pw.length = len := by
  obtain ⟨pw, hok, hperm⟩ := generate_ok_spec len cfg rand (by omega) h2
  refine ⟨pw, hok, ?_⟩
  rw [hperm.length_eq]
  simp only [List.length_append, guaranteedChars_length, fillChars_length]
  omega

/-- Witness for the amended claim C3, at length 2 with uppercase and
lowercase enabled. -/
theorem generate_exact_length_when_enough_witness :
    ∃ pw, generatePassword 2 ⟨true, true, false, false⟩ (fun _ => 0)
        = Except.ok pw ∧ pw.length = 2 :=
  generate_exact_length_when_enough 2 ⟨true, true, false, false⟩
    (fun _ => 0) (by decide) (by decide) (by decide)

/-- Claim C4: for every length at least 1 and nonempty selection with
length at least the number of enabled classes, and every sequence of
draws, the generated password contains at least one character from every
enabled class. -/
theorem generate_coverage (len : Nat) (cfg : Config) (rand : Nat → Nat)
    (h1 : 1 ≤ len) (h2 : selectedTypes cfg ≠ [])
    (h3 : (selectedTypes cfg).length ≤ len) :
    ∃ pw, generatePassword len cfg rand = Except.ok pw ∧
      ∀ t ∈ selectedTypes cfg, ∃ c ∈ pw, c ∈ t := by
  obtain ⟨pw, hok, hperm⟩ := generate_ok_spec len cfg rand (by omega) h2
  refine ⟨pw, hok, fun t ht => ?_⟩
  obtain ⟨c, hcg, hct⟩ := guaranteedChars_cover (selectedTypes cfg) rand
    (selectedTypes_ne_nil_elem cfg) t ht
  exact ⟨c, hperm.mem_iff.mpr (List.mem_append_left _ hcg), hct⟩

/-- Witness for claim C4, at length 2 with uppercase and lowercase
enabled. -/
theorem generate_coverage_witness :
    ∃ pw, generatePassword 2 ⟨true, true, false, false⟩ (fun _ => 0)
        = Except.ok pw ∧
      ∀ t ∈ selectedTypes ⟨true, true, false, false⟩, ∃ c ∈ pw, c ∈ t :=
  generate_coverage 2 ⟨true, true, false, false⟩ (fun _ => 0)
    (by decide) (by decide) (by decide)

/-- Claim C5: the generator signals an error exactly when the requested
length is positive and no class is selected, and the only error it ever
signals is EmptyConfiguration. -/
theorem generate_error_iff (len : Nat) (cfg : Config) (rand : Nat → Nat)
    (e : GenError) :
    generatePassword len cfg rand = Except.error e ↔
      0 < len ∧ selectedTypes cfg = [] ∧ e = GenError.emptyConfiguration := by
  unfold generatePassword
  rcases Nat.eq_zero_or_pos len with rfl | hpos
  · simp
  · rw [if_neg (Nat.pos_iff_ne_zero.mp hpos)]
    cases hsel : noneSelected cfg with
    | false =>
      have hne : selectedTypes cfg ≠ [] := fun hc => by
        rw [(noneSelected_iff cfg).mpr hc] at hsel
        exact Bool.true_eq_false.mp hsel
      simp [hsel, hne]
    | true =>
      have he := (noneSelected_iff cfg).mp hsel
      cases e
      simp [hsel, hpos, he]

/-- Witness for claim C5: at length 3 with nothing selected the generator
signals EmptyConfiguration. -/
theorem generate_error_iff_witness :
    generatePassword 3 ⟨false, false, false, false⟩ (fun _ => 0)
      = Except.error GenError.emptyConfiguration :=
  (generate_error_iff 3 ⟨false, false, false, false⟩ (fun _ => 0)
    GenError.emptyConfiguration).mpr ⟨by decide, by decide, rfl⟩

/-- Claim C6: a zero-length request returns the empty string and signals
no error, whatever the selection. -/
theorem generate_zero_length (cfg : Config) (rand : Nat → Nat) :
    generatePassword 0 cfg rand = Except.ok [] := rfl

/-- Claim C7: every character of a generated password belongs to the
union alphabet of the enabled classes, and, the four alphabets being
pairwise disjoint, to no disabled class alphabet. -/
theorem generate_chars_from_enabled_union (len : Nat) (cfg : Config)
    (rand : Nat → Nat) (pw : List Char) (h1 : 1 ≤ len)
    (h2 : selectedTypes cfg ≠ [])
    (hok : generatePassword len cfg rand = Except.ok pw) :
    ∀ c ∈ pw, c ∈ availableChars cfg
      ∧ (cfg.hasUppercase = false → c ∉ uppercase)
      ∧ (cfg.hasLowercase = false → c ∉ lowercase)
      ∧ (cfg.hasNumbers = false → c ∉ numbers)
      ∧ (cfg.hasSymbols = false → c ∉ symbols) := by
  obtain ⟨pw2, hok2, hperm⟩ := generate_ok_spec len cfg rand (by omega) h2
  rw [hok] at hok2
  injection hok2 with hpw
  subst hpw
  intro c hc
  have hc2 := hperm.mem_iff.mp hc
  have hmem : c ∈ availableChars cfg := by
    rcases List.mem_append.mp hc2 with hg | hf
    · obtain ⟨t, ht, hct⟩ := guaranteedChars_mem _ _
        (selectedTypes_ne_nil_elem cfg) c hg
      rw [← flatten_selectedTypes]
      exact List.mem_flatten.mpr ⟨t, ht, hct⟩
    · exact fillChars_mem _ _ _ (availableChars_ne_nil cfg h2) c hf
  refine ⟨hmem, fun hu => ?_, fun hl => ?_, fun hn => ?_, fun hs => ?_⟩ <;>
    rcases (mem_availableChars cfg c).mp hmem with
      ⟨h, hcm⟩ | ⟨h, hcm⟩ | ⟨h, hcm⟩ | ⟨h, hcm⟩ <;>
    simp_all <;> first
      | exact not_mem_uppercase_of_mem_lowercase c hcm
      | exact not_mem_uppercase_of_mem_numbers c hcm
      | exact not_mem_uppercase_of_mem_symbols c hcm
      | exact not_mem_lowercase_of_mem_uppercase c hcm
      | exact not_mem_lowercase_of_mem_numbers c hcm
      | exact not_mem_lowercase_of_mem_symbols c hcm
      | exact not_mem_numbers_of_mem_uppercase c hcm
      | exact not_mem_numbers_of_mem_lowercase c hcm
      | exact not_mem_numbers_of_mem_symbols c hcm
      | exact not_mem_symbols_of_mem_uppercase c hcm
      | exact not_mem_symbols_of_mem_lowercase c hcm
      | exact not_mem_symbols_of_mem_numbers c hcm

/-- Witness for claim C7: with only the digit class enabled at length 1
the single generated character 0 is in the union alphabet and in no
disabled alphabet. -/
theorem generate_chars_from_enabled_union_witness :
    '0' ∈ availableChars ⟨false, false, true, false⟩
      ∧ ((⟨false, false, true, false⟩ : Config).hasUppercase = false →
          '0' ∉ uppercase)
      ∧ ((⟨false, false, true, false⟩ : Config).hasLowercase = false →
          '0' ∉ lowercase)
      ∧ ((⟨false, false, true, false⟩ : Config).hasNumbers = false →
          '0' ∉ numbers)
      ∧ ((⟨false, false, true, false⟩ : Config).hasSymbols = false →
          '0' ∉ symbols) :=
  generate_chars_from_enabled_union 1 ⟨false, false, true, false⟩
    (fun _ => 0) (String.toList "0") (by decide) (by decide) rfl
    '0' (by decide)

/-- Claim C8: for every input and every sequence of swap draws,
shuffleString returns a string of the same length that is a permutation
of the input, hence has the same multiset of characters. -/
theorem shuffleString_is_permutation (s : List Char) (rand : Nat → Nat) :
    (shuffleString s rand).length = s.length ∧
      List.Perm (shuffleString s rand) s :=
  ⟨(shuffleString_perm s rand).length_eq, shuffleString_perm s rand⟩

/-- Claim C9: for every length at least 1, nonempty selection and
sequence of draws, the generated password has exactly
max(length, number of enabled classes) characters: when the length is
smaller than the class count the output is longer than requested, with
one guaranteed character per class and no truncation. -/
theorem generate_length_max (len : Nat) (cfg : Config) (rand : Nat → Nat)
    (h1 : 1 ≤ len) (h2 : selectedTypes cfg ≠ []) :
    ∃ pw, generatePassword len cfg rand = Except.ok pw ∧
      pw.length = max len (selectedTypes cfg).length := by
  obtain ⟨pw, hok, hperm⟩ := generate_ok_spec len cfg rand (by omega) h2
  refine ⟨pw, hok, ?_⟩
  rw [hperm.length_eq]
  simp only [List.length_append, guaranteedChars_length, fillChars_length]
  omega

/-- Witness for claim C9, at length 1 with uppercase and lowercase
enabled: the output has max(1, 2) = 2 characters. -/
theorem generate_length_max_witness :
    ∃ pw, generatePassword 1 ⟨true, true, false, false⟩ (fun _ => 0)
        = Except.ok pw ∧
      pw.length = max 1 (selectedTypes ⟨true, true, false, false⟩).length :=
  generate_length_max 1 ⟨true, true, false, false⟩ (fun _ => 0)
    (by decide) (by decide)

/-- Claim C10: a password containing at least one character of one of the
four class alphabets scores in [0, 4]; by contraposition the score can be
negative only when no class character occurs, that is when none of the
four predicates holds. -/
theorem strength_bounds_of_class_char (p : List Char)
    (h : ∃ c ∈ p, c ∈ uppercase ∨ c ∈ lowercase ∨ c ∈ numbers ∨ c ∈ symbols) :
    0 ≤ calculatePasswordStrength p ∧ calculatePasswordStrength p ≤ 4 := by
  obtain ⟨c, hc, hm⟩ := h
  have hvar : (testUppercase p || testLowercase p || testNumbers p
      || testSymbols p) = true := by
    rcases hm with hm | hm | hm | hm
    · simp [testUppercase_of_mem p c hc hm]
    · simp [testLowercase_of_mem p c hc hm]
    · simp [testNumbers_of_mem p c hc hm]
    · simp [testSymbols_of_mem p c hc hm]
  have h1 := lengthScore_nonneg p
  have h2 := varietyCount_pos p hvar
  unfold calculatePasswordStrength
  constructor
  · refine le_min ?_ (by norm_num)
    split_ifs <;> omega
  · exact min_le_right _ _

/-- Witness for claim C10, at the one-character password a. -/
theorem strength_bounds_of_class_char_witness :
    0 ≤ calculatePasswordStrength (String.toList "a")
      ∧ calculatePasswordStrength (String.toList "a") ≤ 4 :=
  strength_bounds_of_class_char (String.toList "a") (by decide)

end PwdGen
